import Mathlib

/-!
# Verification of `lib/basedriver/helpers.js` (application artifact acquisition)

A shallow embedding of the acquisition logic of `helpers.js`:
`configureApp`, `getCachedApplicationPath`, `verifyAppExtension`,
`downloadApp` and `unzipApp`.  External collaborators (HTTP probe,
streaming download, zip validation/extraction, content hashing,
temp-dir allocation) are modelled as components of an explicit
environment `Env`; the mutable world (the LRU application cache, the
filesystem, the temp-name allocator) is an explicit state `St` threaded
through the definitions.  Machine-level aspects that the verified claims
do not touch (LRU recency/age bookkeeping, byte streams, invalid `Date`
values) are not modelled; cache entries are an association list keyed by
the descriptor string, and the filesystem is a predicate on path
strings, with `rimraf` removing a path together with everything below
it.
-/

namespace AppiumHelpers

/-! ## Path and string primitives (POSIX `path`, `decodeURIComponent`,
`sanitize-filename`, Node `url.parse`) -/

/-- Percent-decoding of `%XY` hex escapes, as performed by
`decodeURIComponent`; malformed escapes are kept verbatim (the JS
function would throw `URIError`, which never happens on the inputs the
acquisition code produces). -/
def hexDigitVal (c : Char) : Option Nat :=
  if '0' ≤ c ∧ c ≤ '9' then some (c.toNat - '0'.toNat)
  else if 'a' ≤ c ∧ c ≤ 'f' then some (c.toNat - 'a'.toNat + 10)
  else if 'A' ≤ c ∧ c ≤ 'F' then some (c.toNat - 'A'.toNat + 10)
  else none

/-- Character-list worker for percent-decoding. -/
def percentDecodeAux : List Char → List Char
  | [] => []
  | '%' :: a :: b :: rest =>
    match hexDigitVal a, hexDigitVal b with
    | some x, some y => Char.ofNat (16 * x + y) :: percentDecodeAux rest
    | _, _ => '%' :: percentDecodeAux (a :: b :: rest)
  | c :: rest => c :: percentDecodeAux rest

/-- `decodeURIComponent` on a whole string. -/
def percentDecodeStr (s : String) : String :=
  (percentDecodeAux s.toList).asString

/-- Characters that `sanitize-filename` replaces: the illegal-filename
set together with C0/C1 control characters. -/
def illegalFileChar (c : Char) : Bool :=
  c = '/' || c = '?' || c = '<' || c = '>' || c = '\\' ||
  c = ':' || c = '*' || c = '|' || c = '"' ||
  c.toNat < 32 || (128 ≤ c.toNat && c.toNat ≤ 159)

/-- `sanitize(name, replacement)` from the `sanitize-filename` package,
with the fixed replacement character `'-'` used by `helpers.js`
(`SANITIZE_REPLACEMENT`).  The Windows-reserved-name and 255-byte
truncation rules are not modelled; none of the verified inputs trigger
them. -/
def sanitize (s : String) : String :=
  (s.toList.map (fun c => if illegalFileChar c then '-' else c)).asString

/-- Split a character list at every occurrence of `sep`, with the JS
`String.prototype.split` semantics (an empty input gives one empty
group, separators at the edges give empty groups). -/
def splitOnChar (sep : Char) : List Char → List (List Char)
  | [] => [[]]
  | c :: cs =>
    match splitOnChar sep cs with
    | [] => [[]]
    | g :: gs => if c = sep then [] :: g :: gs else (c :: g) :: gs

/-- Remove trailing occurrences of `'/'`. -/
def dropTrailingSlashes (cs : List Char) : List Char :=
  (cs.reverse.dropWhile (· = '/')).reverse

/-- Join path segments with `'/'`. -/
def joinSlash : List String → String
  | [] => ""
  | [x] => x
  | x :: xs => x ++ "/" ++ joinSlash xs

/-- POSIX `path.basename`: the last path segment, ignoring trailing
slashes. -/
def pathBasename (p : String) : String :=
  match (splitOnChar '/' (dropTrailingSlashes p.toList)).getLast? with
  | some s => s.asString
  | none => ""

/-- Index (from the front) of the last `'.'` in a character list. -/
def lastDotIdx : List Char → Option Nat
  | [] => none
  | c :: cs =>
    match lastDotIdx cs with
    | some i => some (i + 1)
    | none => if c = '.' then some 0 else none

/-- POSIX `path.extname`: the suffix of the basename starting at its
last dot, unless that dot is the leading character (`.bashrc` has no
extension). -/
def pathExtname (p : String) : String :=
  let b := (pathBasename p).toList
  match lastDotIdx b with
  | none => ""
  | some 0 => ""
  | some i => (b.drop i).asString

/-- POSIX `path.isAbsolute`. -/
def pathIsAbsolute (p : String) : Bool :=
  match p.toList with
  | '/' :: _ => true
  | _ => false

/-- Fold step used by `pathResolve` to resolve `..` segments. -/
def resolveStep (acc : List String) (seg : String) : List String :=
  if seg = ".." then acc.dropLast else acc ++ [seg]

/-- POSIX `path.resolve base p` where `base` is absolute: join, drop
empty and `.` segments, resolve `..`. -/
def pathResolve (base p : String) : String :=
  let s := if pathIsAbsolute p then p.toList else base.toList ++ '/' :: p.toList
  let segs := (splitOnChar '/' s).map List.asString
  let segs := segs.filter (fun x => !(x == "") && !(x == "."))
  "/" ++ joinSlash (segs.foldl resolveStep [])

/-- The scheme component of Node `url.parse`: a leading non-empty run
of `[A-Za-z0-9+.-]` followed by `':'`, lower-cased and including the
colon; `none` otherwise (relative and absolute paths). -/
def urlProtocol (s : String) : Option String :=
  let cs := s.toList
  let body := cs.takeWhile (fun c => c.isAlphanum || c = '.' || c = '+' || c = '-')
  if body ≠ [] ∧ (cs.drop body.length).head? = some ':' then
    some ((body.map Char.toLower).asString ++ ":")
  else none

/-- `['http:', 'https:'].includes(protocol)` — line 111 of
`helpers.js`. -/
def isWebUrl (s : String) : Bool :=
  (urlProtocol s == some "http:") || (urlProtocol s == some "https:")

/-- The `pathname` component of Node `url.parse` for scheme-bearing
URLs: the part after the authority up to the query/fragment, `none`
(JS `null`) when the URL has no path.  Strings without a scheme parse
to themselves. -/
def urlPathname (s : String) : Option String :=
  match urlProtocol s with
  | none => some s
  | some proto =>
    let rest := s.toList.drop proto.length
    let rest2 := if rest.take 2 = ['/', '/'] then rest.drop 2 else rest
    let afterHost := rest2.dropWhile (fun c => c ≠ '/' ∧ c ≠ '?' ∧ c ≠ '#')
    match afterHost with
    | '/' :: _ => some ((afterHost.takeWhile (fun c => c ≠ '?' ∧ c ≠ '#')).asString)
    | _ => none

/-- Word characters of the JS regex `\b` boundary. -/
def isWordChar (c : Char) : Bool :=
  c.isAlphanum || c = '_'

/-- Does `pat` (which starts and ends with word characters) occur in
`ct` with `\b` boundaries on both sides?  Mirrors
`new RegExp('\\b' + escaped + '\\b').test(ct)` from line 147. -/
def containsWordBounded (ct pat : String) : Bool :=
  let cs := ct.toList
  let ps := pat.toList
  (List.range (cs.length + 1)).any fun i =>
    ps.isPrefixOf (cs.drop i) &&
    (match cs.get? (i - 1) with
     | some c => decide (i = 0) || !isWordChar c
     | none => true) &&
    (match cs.get? (i + ps.length) with
     | some c => !isWordChar c
     | none => true)

/-- Case-insensitive `startsWith`, for the `/^attachment/i` test on the
content-disposition header. -/
def startsWithCI (s pre : String) : Bool :=
  (s.toList.take pre.length).map Char.toLower = pre.toList.map Char.toLower

/-- Character-list pattern for `filename="`. -/
def cdPattern : List Char :=
  "filename=\"".toList

/-- Case-insensitive prefix match of `pat` at the front of `cs`. -/
def matchesCI (pat cs : List Char) : Bool :=
  (cs.take pat.length).map Char.toLower = pat.map Char.toLower

/-- The capture of `/filename="([^"]+)/i.exec(cd)`: the first position
where `filename="` matches case-insensitively and is followed by at
least one non-quote character; the capture extends to the next quote
(or the end of the header). -/
def extractCDFileName (cd : String) : Option String :=
  let cs := cd.toList
  match (List.range cs.length).find? (fun i =>
      matchesCI cdPattern (cs.drop i) &&
      (match (cs.drop (i + cdPattern.length)).head? with
       | some c => c ≠ '"'
       | none => false)) with
  | none => none
  | some i =>
    some (((cs.drop (i + cdPattern.length)).takeWhile (· ≠ '"')).asString)

/-! ## Data model: constants, headers, cache entries, environment and
state -/

/-- `ZIP_EXTS` (line 15). -/
def ZIP_EXTS : List String := [".zip", ".ipa"]

/-- `ZIP_MIME_TYPES` (lines 16–20). -/
def ZIP_MIME_TYPES : List String :=
  ["application/zip", "application/x-zip-compressed", "multipart/x-zip"]

/-- `DEFAULT_BASENAME` (line 37). -/
def DEFAULT_BASENAME : String := "appium-app"

/-- The response of the `HEAD` metadata probe (`retrieveHeaders`,
lines 59–72).  A failed or timed-out probe returns an empty header
object, i.e. all fields `none`.  `lastModified` is the parsed
`Last-Modified` timestamp in milliseconds. -/
structure Headers where
  lastModified : Option Nat
  contentType : Option String
  contentDisposition : Option String
deriving DecidableEq

/-- A value stored in `APPLICATIONS_CACHE` (see the `.set` call at
lines 237–241): content digest, `Last-Modified` token, and the resolved
artifact path. -/
structure CacheEntry where
  hash : Option String
  lastModified : Option Nat
  fullPath : String
deriving DecidableEq

/-- The cache mapping, keyed by descriptor.  The LRU recency/age
bookkeeping of `lru-cache` is not modelled; only the key→entry mapping
is. -/
abbrev Cache := List (String × CacheEntry)

/-- Lookup (`APPLICATIONS_CACHE.get` / `.has`). -/
def cacheGet : Cache → String → Option CacheEntry
  | [], _ => none
  | (k, e) :: rest, key => if k = key then some e else cacheGet rest key

/-- `APPLICATIONS_CACHE.del`. -/
def cacheDel : Cache → String → Cache
  | [], _ => []
  | (k, e) :: rest, key =>
    if k = key then cacheDel rest key else (k, e) :: cacheDel rest key

/-- `APPLICATIONS_CACHE.set`. -/
def cacheSet (c : Cache) (key : String) (e : CacheEntry) : Cache :=
  (key, e) :: cacheDel c key

/-- External collaborators of one acquisition, fixed for the duration
of the call: the probe response, whether the streaming download
succeeds, the content-hash function (`fs.hash`), the zip collaborator
(`none` = `zip.assertValidZip` rejects the file, `some entries` = the
relative paths `fs.glob('**')` enumerates after a full extraction), the
working directory, and the temp-name allocators (`tempDir.path` with a
filename, `tempDir.openDir`), indexed by an allocation counter. -/
structure Env where
  headers : Headers
  downloadOk : Bool
  hashOf : String → String
  zipEntries : String → Option (List String)
  cwd : String
  tmpFile : Nat → String → String
  tmpDir : Nat → String

/-- The mutable world: the application cache, file existence on disk,
observability counters for performed downloads and extractions, and the
temp-allocation counter. -/
structure St where
  cache : Cache
  fs : String → Bool
  downloads : Nat
  extractions : Nat
  tmpCounter : Nat

/-- A path comes into existence (download target, temp dir). -/
def fsAdd (fs : String → Bool) (p : String) : String → Bool :=
  fun q => q == p || fs q

/-- `fs.rimraf p`: `p` and everything below it stop existing. -/
def fsRemove (fs : String → Bool) (p : String) : String → Bool :=
  fun q => if q == p || List.isPrefixOf (p.toList ++ ['/']) q.toList then false else fs q

/-- `fs.mv src dst` (with `mkdirp`). -/
def fsMv (fs : String → Bool) (src dst : String) : String → Bool :=
  fsAdd (fsRemove fs src) dst

/-- JS truthiness of the `archiveHash` variable (a string or `null`)
in the guard at line 229. -/
def jsTruthy : Option String → Bool
  | some s => !(s == "")
  | none => false

/-- The error taxonomy of §7, carrying the data the thrown `Error`
messages name. -/
inductive AppError where
  | notFound (path : String)
  | unsupportedProtocol (protocol descriptor : String)
  | downloadFailure (descriptor : String)
  | invalidArchive (zipPath : String)
  | noBundleFound (exts : List String)
  | unsupportedExtension (app : String) (exts : List String)
deriving DecidableEq

/-- Is an error the `UnsupportedExtension` failure of
`verifyAppExtension`? -/
def AppError.isUnsupportedExtension : AppError → Bool
  | .unsupportedExtension _ _ => true
  | _ => false

deriving instance DecidableEq for Except

/-! ## The embedded functions of `helpers.js` -/

/-- `getCachedApplicationPath` (lines 74–86): a cached path is returned
only when the probe produced a token, the descriptor is cached, the
entry stores a token, and the probed token is not newer than the stored
one. -/
def getCachedApplicationPath (cache : Cache) (link : String)
    (currentModified : Option Nat) : Option String :=
  match cacheGet cache link, currentModified with
  | some entry, some cm =>
    match entry.lastModified with
    | some lm => if cm ≤ lm then some entry.fullPath else none
    | none => none
  | _, _ => none

/-- `verifyAppExtension` (lines 88–95), with the thrown `Error`
(naming the offending path and the supported set) as an `Except`
error. -/
def verifyAppExtension (app : String) (supportedAppExtensions : List String) :
    Except AppError String :=
  if supportedAppExtensions.contains (pathExtname app) then Except.ok app
  else Except.error (AppError.unsupportedExtension app supportedAppExtensions)

/-- Does the content-type header match one of `ZIP_MIME_TYPES`
word-boundedly (line 147)? -/
def zipMimeMatch (ct : String) : Bool :=
  ZIP_MIME_TYPES.any (containsWordBounded ct)

/-- The default-name fallback of lines 164–176: strip the detected
extension from the basename (or use `DEFAULT_BASENAME` for an empty
basename) and re-attach the extension, coerced to the first supported
extension when unsupported.  `_.first` of an empty JS array is
`undefined`, which string interpolation renders as `"undefined"`. -/
def fallbackName (basename extname : String) (supportedAppExtensions : List String) :
    String :=
  let resultingName :=
    if basename ≠ "" then
      (basename.toList.take (basename.toList.length - extname.toList.length)).asString
    else DEFAULT_BASENAME
  let resultingExt :=
    if supportedAppExtensions.contains extname then extname
    else match supportedAppExtensions with
      | [] => "undefined"
      | e :: _ => e
  resultingName ++ resultingExt

/-- The destination-name derivation of the download case
(lines 132–176), translated statement by statement: the URL basename
check, then the content-type check (fills the name only when still
missing, but always marks for extraction), then the
content-disposition check (assigns the name whenever an attachment
filename is present, and marks for extraction when its extension is
recognized), then the fallback.  Returns the derived file name and the
`shouldUnzipApp` flag. -/
def deriveDownloadName (headers : Headers) (pathnameStr : String)
    (supportedAppExtensions : List String) : String × Bool :=
  let basename := sanitize (pathBasename (percentDecodeStr pathnameStr))
  let extname := pathExtname basename
  let fileName : Option String :=
    if ZIP_EXTS.contains extname then some basename else none
  let shouldUnzipApp := ZIP_EXTS.contains extname
  let state1 : Option String × Bool :=
    match headers.contentType with
    | some ct =>
      if zipMimeMatch ct then
        (some (fileName.getD (DEFAULT_BASENAME ++ ".zip")), true)
      else (fileName, shouldUnzipApp)
    | none => (fileName, shouldUnzipApp)
  let state2 : Option String × Bool :=
    match headers.contentDisposition with
    | some cd =>
      if startsWithCI cd "attachment" then
        match extractCDFileName cd with
        | some fn =>
          let fn := sanitize fn
          (some fn, state1.2 || ZIP_EXTS.contains (pathExtname fn))
        | none => state1
      else state1
    | none => state1
  match state2.1 with
  | some f => (f, state2.2)
  | none => (fallbackName basename extname supportedAppExtensions, state2.2)

/-- Path-segment depth: `relativePath.split(path.sep).length`
(line 307). -/
def segDepth (relativePath : String) : Nat :=
  (splitOnChar '/' relativePath.toList).length

/-- Stable insertion for the depth sort: an element goes in front of
the first element of equal or greater depth. -/
def insertByDepth (x : String) : List String → List String
  | [] => [x]
  | y :: ys =>
    if segDepth x ≤ segDepth y then x :: y :: ys else y :: insertByDepth x ys

/-- The stable `sort` of line 307 (ascending path-segment depth, ties
kept in enumeration order). -/
def sortByDepth : List String → List String
  | [] => []
  | x :: xs => insertByDepth x (sortByDepth xs)

/-- Lines 304–314: filter the enumerated entries to the supported
extensions, sort by depth, take the first. -/
def selectBundle (allExtractedItems : List String)
    (supportedAppExtensions : List String) : Option String :=
  (sortByDepth (allExtractedItems.filter
    (fun p => supportedAppExtensions.contains (pathExtname p)))).head?

/-- `unzipApp` (lines 291–323): validate the archive, extract into a
fresh temp directory, pick the shallowest supported entry, move it into
`dstRoot`, and remove the temp directory on every exit path (`finally`
at line 321).  An invalid archive fails before the temp directory is
created (line 292 precedes line 298). -/
def unzipApp (env : Env) (zipPath dstRoot : String)
    (supportedAppExtensions : List String) (st : St) :
    Except AppError String × St :=
  match env.zipEntries zipPath with
  | none => (Except.error (AppError.invalidArchive zipPath), st)
  | some allExtractedItems =>
    let tmpRoot := env.tmpDir st.tmpCounter
    let st1 : St :=
      { st with tmpCounter := st.tmpCounter + 1,
                fs := fsAdd st.fs tmpRoot,
                extractions := st.extractions + 1 }
    match selectBundle allExtractedItems supportedAppExtensions with
    | none =>
      (Except.error (AppError.noBundleFound supportedAppExtensions),
       { st1 with fs := fsRemove st1.fs tmpRoot })
    | some matchedBundle =>
      let dstPath := pathResolve dstRoot matchedBundle
      let st2 : St :=
        { st1 with fs := fsMv st1.fs (pathResolve tmpRoot matchedBundle) dstPath }
      (Except.ok dstPath, { st2 with fs := fsRemove st2.fs tmpRoot })

/-- The intermediate outcome of the branch on lines 114–194: either an
early return (the freshness cache hit at line 126) or the values of
`newApp`, `shouldUnzipApp` and `currentModified` flowing into the rest
of the function. -/
inductive Mid where
  | done (result : String)
  | step (newApp : String) (shouldUnzipApp : Bool) (currentModified : Option Nat)

/-- Lines 132–181: derive the destination name, allocate the temp
target path, stream the download (`downloadApp`, lines 247–276 — a
transport error or HTTP status ≥ 400 aborts with a wrapped failure).
The `downloads` counter records the attempt. -/
def downloadPart (env : Env) (app : String)
    (supportedAppExtensions : List String) (currentModified : Option Nat)
    (st : St) : Except AppError Mid × St :=
  let pathname := (urlPathname app).getD "null"
  let derived := deriveDownloadName env.headers pathname supportedAppExtensions
  let targetPath := env.tmpFile st.tmpCounter derived.1
  let st1 : St := { st with tmpCounter := st.tmpCounter + 1 }
  if env.downloadOk then
    (Except.ok (Mid.step targetPath derived.2 currentModified),
     { st1 with downloads := st1.downloads + 1, fs := fsAdd st1.fs targetPath })
  else
    (Except.error (AppError.downloadFailure app),
     { st1 with downloads := st1.downloads + 1 })

/-- Lines 114–194: the URL branch (probe, freshness check against the
cache, stale-entry purge, download), the local branch (existence check
and zip classification), and the failure branch (`UnsupportedProtocol`
for a scheme longer than two characters, `NotFound` otherwise). -/
def fetchPhase (env : Env) (app : String)
    (supportedAppExtensions : List String) (st : St) :
    Except AppError Mid × St :=
  if isWebUrl app then
    let currentModified := env.headers.lastModified
    match getCachedApplicationPath st.cache app currentModified with
    | some cachedPath =>
      if st.fs cachedPath then
        ((verifyAppExtension cachedPath supportedAppExtensions).map Mid.done, st)
      else
        downloadPart env app supportedAppExtensions currentModified
          { st with cache := cacheDel st.cache app }
    | none => downloadPart env app supportedAppExtensions currentModified st
  else if st.fs app then
    (Except.ok (Mid.step app (ZIP_EXTS.contains (pathExtname app)) none), st)
  else
    match urlProtocol app with
    | some p =>
      if 2 < p.length then
        (Except.error (AppError.unsupportedProtocol p app), st)
      else (Except.error (AppError.notFound app), st)
    | none => (Except.error (AppError.notFound app), st)

/-- Lines 227–243: the final extension validation and the single cache
write, guarded by `app !== newApp && (archiveHash || currentModified)`,
preceded by best-effort deletion of an obsolete entry's artifact. -/
def commonTail (app : String) (supportedAppExtensions : List String)
    (newApp : String) (archiveHash : Option String)
    (currentModified : Option Nat) (st : St) :
    Except AppError String × St :=
  match verifyAppExtension newApp supportedAppExtensions with
  | Except.error e => (Except.error e, st)
  | Except.ok _ =>
    if !(app == newApp) && (jsTruthy archiveHash || currentModified.isSome) then
      let st1 : St :=
        match cacheGet st.cache app with
        | some e =>
          if e.fullPath ≠ newApp ∧ st.fs e.fullPath then
            { st with fs := fsRemove st.fs e.fullPath }
          else st
        | none => st
      let entry : CacheEntry := ⟨archiveHash, currentModified, newApp⟩
      (Except.ok newApp, { st1 with cache := cacheSet st1.cache app entry })
    else (Except.ok newApp, st)

/-- Lines 211–219: allocate the destination root, run `unzipApp`, and
apply the `finally` of lines 214–218 (delete the downloaded archive
when a different path came back and the archive is not the original
descriptor; on failure `newApp` still equals `archivePath`, so nothing
is deleted), then fall into the shared tail. -/
def extractAndFinish (env : Env) (app : String)
    (supportedAppExtensions : List String) (archivePath : String)
    (archiveHash : String) (currentModified : Option Nat) (st : St) :
    Except AppError String × St :=
  let tmpRoot := env.tmpDir st.tmpCounter
  let st1 : St :=
    { st with tmpCounter := st.tmpCounter + 1, fs := fsAdd st.fs tmpRoot }
  match unzipApp env archivePath tmpRoot supportedAppExtensions st1 with
  | (Except.error e, st2) => (Except.error e, st2)
  | (Except.ok newApp2, st2) =>
    let st3 : St :=
      if newApp2 ≠ archivePath ∧ archivePath ≠ app then
        { st2 with fs := fsRemove st2.fs archivePath }
      else st2
    commonTail app supportedAppExtensions newApp2 (some archiveHash)
      currentModified st3

/-- Lines 196–243: the join of the state machine.  For an archive:
hash it, reuse the cached artifact on an identical digest (deleting the
fresh download), purge a stale entry, otherwise extract.  For a plain
file: rewrite a relative path against the working directory, the
rewritten value replacing the descriptor (`app = newApp`, line 224).
Then the shared tail. -/
def finishPhase (env : Env) (app : String)
    (supportedAppExtensions : List String) (newApp : String)
    (shouldUnzipApp : Bool) (currentModified : Option Nat) (st : St) :
    Except AppError String × St :=
  if shouldUnzipApp then
    let archivePath := newApp
    let archiveHash := env.hashOf archivePath
    match cacheGet st.cache app with
    | some entry =>
      if entry.hash = some archiveHash then
        if st.fs entry.fullPath then
          let st1 : St :=
            if archivePath ≠ app then { st with fs := fsRemove st.fs archivePath }
            else st
          (verifyAppExtension entry.fullPath supportedAppExtensions, st1)
        else
          let st1 : St := { st with cache := cacheDel st.cache app }
          extractAndFinish env app supportedAppExtensions archivePath archiveHash
            currentModified st1
      else
        extractAndFinish env app supportedAppExtensions archivePath archiveHash
          currentModified st
    | none =>
      extractAndFinish env app supportedAppExtensions archivePath archiveHash
        currentModified st
  else
    let pair : String × String :=
      if !(pathIsAbsolute newApp) then
        let r := pathResolve env.cwd newApp
        (r, r)
      else (newApp, app)
    commonTail pair.2 supportedAppExtensions pair.1 none currentModified st

/-- `configureApp` on a string descriptor (lines 106–244); the
`supportedAppExtensions` argument is taken already in array form (the
wrap of line 103). -/
def configureAppStr (env : Env) (app : String)
    (supportedAppExtensions : List String) (st : St) :
    Except AppError String × St :=
  match fetchPhase env app supportedAppExtensions st with
  | (Except.error e, st1) => (Except.error e, st1)
  | (Except.ok (Mid.done p), st1) => (Except.ok p, st1)
  | (Except.ok (Mid.step newApp su cm), st1) =>
    finishPhase env app supportedAppExtensions newApp su cm st1

/-- The possible JS values of the `app` argument. -/
inductive JSVal where
  | str (s : String)
  | num (n : Int)
  | boolean (b : Bool)
  | jsNull
  | jsUndefined
  | obj

/-- `_.isString` (line 98). -/
def JSVal.isString : JSVal → Bool
  | .str _ => true
  | _ => false

/-- `configureApp` (lines 97–245): a non-string `app` short-circuits to
`undefined` (modelled `none`) with no effect; a string runs the
acquisition.  The `APPLICATIONS_CACHE_GUARD.acquire` wrapper adds no
behaviour in this single-call sequential model. -/
def configureApp (env : Env) (app : JSVal)
    (supportedAppExtensions : List String) (st : St) :
    Except AppError (Option String) × St :=
  match app with
  | .str s =>
    let r := configureAppStr env s supportedAppExtensions st
    (r.1.map some, r.2)
  | _ => (Except.ok none, st)

/-! ## Specification-side definitions -/

/-- The destination-name derivation in the priority order the amended
claim C2 states: a content-disposition attachment filename overrides
any name derived earlier (while still marking the resource for
extraction when its extension is recognized); the URL-basename check
beats the content-type check, which only fills a missing name; the
fallback applies when no check produced a name; the extraction flag is
the disjunction of the three archive signals. -/
def deriveDownloadNameSpec (headers : Headers) (pathnameStr : String)
    (supportedAppExtensions : List String) : String × Bool :=
  let basename := sanitize (pathBasename (percentDecodeStr pathnameStr))
  let extname := pathExtname basename
  let urlArchive := ZIP_EXTS.contains extname
  let ctArchive :=
    match headers.contentType with
    | some ct => zipMimeMatch ct
    | none => false
  let cdName : Option String :=
    match headers.contentDisposition with
    | some cd =>
      if startsWithCI cd "attachment" then (extractCDFileName cd).map sanitize
      else none
    | none => none
  let name :=
    match cdName with
    | some fn => fn
    | none =>
      if urlArchive then basename
      else if ctArchive then DEFAULT_BASENAME ++ ".zip"
      else fallbackName basename extname supportedAppExtensions
  let shouldUnzip :=
    urlArchive || ctArchive ||
      (match cdName with
       | some fn => ZIP_EXTS.contains (pathExtname fn)
       | none => false)
  (name, shouldUnzip)

/-- The earliest minimum-depth element of a list: the winner the claim
C4 describes (shallowest entry, ties broken by enumeration order). -/
def firstMinByDepth : List String → Option String
  | [] => none
  | x :: xs =>
    match firstMinByDepth xs with
    | none => some x
    | some m => if segDepth m < segDepth x then some m else some x

/-! ## Concrete environments and states used by witnesses and
counterexamples -/

/-- A neutral environment: degraded probe, succeeding download,
constant content hash, no valid archives, `/work` working directory,
simple fresh temp names. -/
def baseEnv : Env where
  headers := ⟨none, none, none⟩
  downloadOk := true
  hashOf := fun _ => "h"
  zipEntries := fun _ => none
  cwd := "/work"
  tmpFile := fun n f => "/tmp/f" ++ toString n ++ "/" ++ f
  tmpDir := fun n => "/tmp/d" ++ toString n

/-- The empty initial state. -/
def st0 : St where
  cache := []
  fs := fun _ => false
  downloads := 0
  extractions := 0
  tmpCounter := 0

/-- Probe returning `Last-Modified` = 100. -/
def envFresh100 : Env := { baseEnv with headers := ⟨some 100, none, none⟩ }

/-- Cache holds a freshness entry (token 100) for the test URL whose
artifact `/c/old.ipa` exists but has an unsupported extension. -/
def stHitIpa : St :=
  { st0 with cache := [("http://x/app.zip", ⟨none, some 100, "/c/old.ipa"⟩)],
             fs := fun p => p == "/c/old.ipa" }

/-- Cache holds a freshness entry (token 100) for the test URL whose
artifact `/c/app.apk` exists. -/
def stHitApk : St :=
  { st0 with cache := [("http://x/app.zip", ⟨none, some 100, "/c/app.apk"⟩)],
             fs := fun p => p == "/c/app.apk" }

/-- Cache holds a digest entry (hash `"h"`) for the test URL whose
artifact `/c/old.ipa` exists but has an unsupported extension. -/
def stHashIpa : St :=
  { st0 with cache := [("http://x/app.zip", ⟨some "h", none, "/c/old.ipa"⟩)],
             fs := fun p => p == "/c/old.ipa" }

/-- Cache holds a digest entry (hash `"h"`) for the test URL whose
artifact `/c/prev.apk` exists. -/
def stHashApk : St :=
  { st0 with cache := [("http://x/app.zip", ⟨some "h", none, "/c/prev.apk"⟩)],
             fs := fun p => p == "/c/prev.apk" }

/-- Every archive is a valid zip holding an `.apk` at depth 2 and one
at depth 0 (enumerated deeper-first). -/
def envZipTwoDepths : Env :=
  { baseEnv with zipEntries := fun _ => some ["a/b/c.apk", "x.apk"] }

/-- Probe returning `Last-Modified` = 200 with a succeeding
download. -/
def envFresh200 : Env := { baseEnv with headers := ⟨some 200, none, none⟩ }

/-- Cache holds an entry with digest `"h"` and stale token 100 for the
test URL; its artifact `/c/prev.apk` exists. -/
def stHashOld : St :=
  { st0 with
      cache := [("http://x/app.zip", ⟨some "h", some 100, "/c/prev.apk"⟩)],
      fs := fun p => p == "/c/prev.apk" }

/-- Cache holds an entry with a differing digest `"old"` for the test
URL; its artifact `/c/prev.apk` exists. -/
def stHashOther : St :=
  { st0 with
      cache := [("http://x/app.zip", ⟨some "old", none, "/c/prev.apk"⟩)],
      fs := fun p => p == "/c/prev.apk" }

/-- Every archive is a valid zip holding no supported bundle. -/
def envZipNoBundle : Env :=
  { baseEnv with zipEntries := fun _ => some ["readme.txt"] }

/-- Probe returning `Last-Modified` = 200 and a download that fails. -/
def envStale : Env :=
  { baseEnv with headers := ⟨some 200, none, none⟩, downloadOk := false }

/-- Cache holds a freshness entry (token 300) for the test URL whose
artifact `/gone/app.apk` no longer exists on disk. -/
def stStale : St :=
  { st0 with cache := [("http://x/app.zip", ⟨none, some 300, "/gone/app.apk"⟩)] }

/-- A download that fails, against a cache holding an unrelated live
entry under key `"a"`. -/
def envDLFail : Env := { baseEnv with downloadOk := false }

/-- State with one unrelated cache entry. -/
def stKeep : St :=
  { st0 with cache := [("a", ⟨none, none, "/a/p.apk"⟩)] }

/-- A local `.ipa` that is a valid zip of a typical iOS app (no `.apk`
inside). -/
def envIpaZip : Env :=
  { baseEnv with zipEntries := fun p =>
      if p == "/a/app.ipa" then some ["Payload/App.app"] else none }

/-- `/a/app.ipa` exists on disk. -/
def stIpa : St := { st0 with fs := fun p => p == "/a/app.ipa" }

/-- `./app.apk` exists on disk (relative descriptor). -/
def stRel : St := { st0 with fs := fun p => p == "./app.apk" }

/-! ## Helper lemmas -/

/-- Without a probed token there is never a freshness hit. -/
theorem getCachedApplicationPath_none (c : Cache) (link : String) :
    getCachedApplicationPath c link none = none := by
  unfold getCachedApplicationPath
  cases cacheGet c link <;> rfl

/-- `rimraf p` removes `p` itself. -/
theorem fsRemove_self (fs : String → Bool) (p : String) :
    fsRemove fs p p = false := by
  simp [fsRemove]

/-- A deleted key is gone from the cache. -/
theorem cacheGet_cacheDel_self (c : Cache) (key : String) :
    cacheGet (cacheDel c key) key = none := by
  induction c with
  | nil => rfl
  | cons kv rest ih =>
    obtain ⟨k, e⟩ := kv
    by_cases hk : k = key
    · simp only [cacheDel, if_pos hk]
      exact ih
    · simp [cacheDel, hk, cacheGet, ih]

/-- Deletion only removes entries: any lookup succeeding after
`cacheDel` succeeded with the same entry before. -/
theorem cacheGet_cacheDel_mono (c : Cache) (key k : String) (e : CacheEntry)
    (h : cacheGet (cacheDel c key) k = some e) : cacheGet c k = some e := by
  induction c with
  | nil => exact h
  | cons kv rest ih =>
    obtain ⟨a, b⟩ := kv
    by_cases ha : a = key
    · rw [cacheDel, if_pos ha] at h
      by_cases hk : a = k
      · exfalso
        rw [← ha, hk] at h
        rw [cacheGet_cacheDel_self] at h
        exact Option.noConfusion h
      · rw [cacheGet, if_neg hk]
        exact ih h
    · rw [cacheDel, if_neg ha] at h
      by_cases hk : a = k
      · rw [cacheGet, if_pos hk] at h ⊢
        exact h
      · rw [cacheGet, if_neg hk] at h ⊢
        exact ih h

/-- Looking up the key just written. -/
theorem cacheGet_cacheSet_self (c : Cache) (key : String) (e : CacheEntry) :
    cacheGet (cacheSet c key e) key = some e := by
  simp [cacheSet, cacheGet]

/-- `downloadPart` never touches the cache. -/
theorem downloadPart_cache (env : Env) (app : String) (exts : List String)
    (cm : Option Nat) (st : St) :
    (downloadPart env app exts cm st).2.cache = st.cache := by
  unfold downloadPart
  split <;> rfl

/-- `fetchPhase` either leaves the cache alone or purges the stale
entry of the descriptor (lines 128–129). -/
theorem fetchPhase_cache (env : Env) (app : String) (exts : List String)
    (st : St) :
    (fetchPhase env app exts st).2.cache = st.cache ∨
    (fetchPhase env app exts st).2.cache = cacheDel st.cache app := by
  simp only [fetchPhase]
  split
  · split
    · split
      · exact Or.inl rfl
      · exact Or.inr (downloadPart_cache ..)
    · exact Or.inl (downloadPart_cache ..)
  · split
    · exact Or.inl rfl
    · split
      · split <;> exact Or.inl rfl
      · exact Or.inl rfl

/-- `unzipApp` never touches the cache. -/
theorem unzipApp_cache (env : Env) (zipPath dstRoot : String)
    (exts : List String) (st : St) :
    (unzipApp env zipPath dstRoot exts st).2.cache = st.cache := by
  unfold unzipApp
  split
  · rfl
  · split <;> rfl

/-- A failing `commonTail` is the extension-validation failure and
returns its input state untouched. -/
theorem commonTail_error_state (app : String) (exts : List String)
    (newApp : String) (ah : Option String) (cm : Option Nat) (st : St)
    (err : AppError)
    (h : (commonTail app exts newApp ah cm st).1 = Except.error err) :
    commonTail app exts newApp ah cm st = (Except.error err, st) := by
  unfold commonTail at h ⊢
  cases hv : verifyAppExtension newApp exts with
  | error e =>
    rw [hv] at h
    simp only at h
    cases h
    rfl
  | ok a =>
    rw [hv] at h
    simp only at h
    exfalso
    split at h <;> simp at h

/-- A failing `extractAndFinish` leaves the cache as it received it. -/
theorem extractAndFinish_err_cache (env : Env) (app : String)
    (exts : List String) (archivePath archiveHash : String) (cm : Option Nat)
    (st : St) (err : AppError)
    (h : (extractAndFinish env app exts archivePath archiveHash cm st).1 =
      Except.error err) :
    (extractAndFinish env app exts archivePath archiveHash cm st).2.cache =
      st.cache := by
  simp only [extractAndFinish] at h ⊢
  split at h
  case h_1 e st2 heq =>
    have h2 := unzipApp_cache env archivePath (env.tmpDir st.tmpCounter) exts
      { st with tmpCounter := st.tmpCounter + 1,
                fs := fsAdd st.fs (env.tmpDir st.tmpCounter) }
    rw [heq] at h2
    exact h2
  case h_2 na2 st2 heq =>
    have h2 := unzipApp_cache env archivePath (env.tmpDir st.tmpCounter) exts
      { st with tmpCounter := st.tmpCounter + 1,
                fs := fsAdd st.fs (env.tmpDir st.tmpCounter) }
    rw [heq] at h2
    have h3 := commonTail_error_state _ _ _ _ _ _ _ h
    rw [h3]
    split <;> exact h2


/-- A failing `finishPhase` either leaves the cache alone or purges
the stale digest entry of the descriptor (lines 208–209). -/
theorem finishPhase_err_cache (env : Env) (app : String) (exts : List String)
    (newApp : String) (su : Bool) (cm : Option Nat) (st : St) (err : AppError)
    (h : (finishPhase env app exts newApp su cm st).1 = Except.error err) :
    (finishPhase env app exts newApp su cm st).2.cache = st.cache ∨
    (finishPhase env app exts newApp su cm st).2.cache = cacheDel st.cache app := by
  simp only [finishPhase] at h ⊢
  cases su with
  | false =>
    rw [if_neg Bool.false_ne_true] at h ⊢
    left
    have h2 := commonTail_error_state _ _ _ _ _ _ _ h
    rw [h2]
  | true =>
    rw [if_pos rfl] at h ⊢
    cases heq : cacheGet st.cache app with
    | none =>
      simp only [heq] at h ⊢
      left
      exact extractAndFinish_err_cache _ _ _ _ _ _ _ _ h
    | some entry =>
      simp only [heq] at h ⊢
      by_cases hh : entry.hash = some (env.hashOf newApp)
      · rw [if_pos hh] at h ⊢
        by_cases hf : st.fs entry.fullPath = true
        · rw [if_pos hf] at h ⊢
          left
          by_cases hna : newApp ≠ app
          · simp only [if_pos hna]
          · simp only [if_neg hna]
        · rw [if_neg hf] at h ⊢
          right
          have h2 := extractAndFinish_err_cache _ _ _ _ _ _ _ _ h
          rw [h2]
      · rw [if_neg hh] at h ⊢
        left
        exact extractAndFinish_err_cache _ _ _ _ _ _ _ _ h

/-! ## Claim C10 -/

/-- C10: for every non-string `app` argument, `configureApp` returns
immediately with no result value (`none`, the JS `undefined`) rather
than raising an error, performing no download and leaving the cache —
indeed the entire state — unchanged. -/
theorem c10_nonstring (env : Env) (app : JSVal) (exts : List String)
    (st : St) (h : app.isString = false) :
    configureApp env app exts st = (Except.ok none, st) := by
  cases app with
  | str s => simp [JSVal.isString] at h
  | num n => rfl
  | boolean b => rfl
  | jsNull => rfl
  | jsUndefined => rfl
  | obj => rfl

/-- Witness for C10 at the concrete non-string value `null`. -/
theorem c10_witness :
    configureApp baseEnv JSVal.jsNull [".apk"] st0 = (Except.ok none, st0) :=
  c10_nonstring baseEnv JSVal.jsNull [".apk"] st0 rfl

/-! ## Claim C8 -/

/-- C8: an existing, non-archive, non-absolute local descriptor is
rewritten to an absolute path against the working directory; the call
returns that resolved path and — because the rewritten value replaces
the descriptor in the cache-key comparison of line 229 — performs no
cache write at all, leaving the state unchanged. -/
theorem c8_relative_rewrite (env : Env) (app : String) (exts : List String)
    (st : St)
    (hproto : urlProtocol app = none)
    (hfs : st.fs app = true)
    (hzip : ZIP_EXTS.contains (pathExtname app) = false)
    (habs : pathIsAbsolute app = false)
    (hext : exts.contains (pathExtname (pathResolve env.cwd app)) = true) :
    configureAppStr env app exts st =
      (Except.ok (pathResolve env.cwd app), st) := by
  have hweb : isWebUrl app = false := by simp [isWebUrl, hproto]
  have h1 : fetchPhase env app exts st =
      (Except.ok (Mid.step app false none), st) := by
    unfold fetchPhase
    rw [hweb, hfs, hzip]
    simp
  unfold configureAppStr
  rw [h1]
  show finishPhase env app exts app false none st =
    (Except.ok (pathResolve env.cwd app), st)
  unfold finishPhase
  rw [habs]
  show commonTail (pathResolve env.cwd app) exts (pathResolve env.cwd app)
      none none st = (Except.ok (pathResolve env.cwd app), st)
  unfold commonTail verifyAppExtension
  rw [hext]
  simp [jsTruthy]

/-- Witness for C8: `./app.apk` against working directory `/work`
resolves to `/work/app.apk` (the resolved path evaluates to that
string). -/
theorem c8_witness :
    configureAppStr baseEnv "./app.apk" [".apk"] stRel =
      (Except.ok (pathResolve baseEnv.cwd "./app.apk"), stRel) ∧
    pathResolve baseEnv.cwd "./app.apk" = "/work/app.apk" :=
  ⟨c8_relative_rewrite baseEnv "./app.apk" [".apk"] stRel
    (by decide) (by decide) (by decide) (by decide) (by decide), by decide⟩

/-! ## Claim C5 -/

/-- C5: on every exit path of `unzipApp` — success, invalid archive, or
`NoBundleFound` — the temporary extraction directory it allocates does
not exist afterwards (for an invalid archive it is never created); the
winning bundle is moved out before the cleanup. -/
theorem c5_cleanup (env : Env) (zipPath dstRoot : String)
    (exts : List String) (st : St)
    (h : st.fs (env.tmpDir st.tmpCounter) = false) :
    ((unzipApp env zipPath dstRoot exts st).2).fs (env.tmpDir st.tmpCounter) =
      false := by
  unfold unzipApp
  cases hz : env.zipEntries zipPath with
  | none => exact h
  | some items =>
    cases hs : selectBundle items exts with
    | none => simp [hs, fsRemove]
    | some m => simp [hs, fsRemove]

/-- Witness for C5: a valid zip with no supported entry; the scratch
directory `/tmp/d0` is gone afterwards. -/
theorem c5_witness :
    ((unzipApp envZipNoBundle "/z.zip" "/dst" [".apk"] st0).2).fs
      (envZipNoBundle.tmpDir st0.tmpCounter) = false :=
  c5_cleanup envZipNoBundle "/z.zip" "/dst" [".apk"] st0 rfl

/-! ## Claim C6 -/

/-- Counterexample to C6: a failing call can modify the cache.  The
probe yields token 200, the cache holds an entry with token 300 whose
artifact `/gone/app.apk` no longer exists, so line 129 deletes the
entry; the subsequent download fails, and the call ends in
`DownloadFailure` with the entry removed. -/
theorem c6_counterexample :
    (configureAppStr envStale "http://x/app.zip" [".apk"] stStale).1 =
      Except.error (AppError.downloadFailure "http://x/app.zip") ∧
    (configureAppStr envStale "http://x/app.zip" [".apk"] stStale).2.cache = [] ∧
    stStale.cache = [("http://x/app.zip", ⟨none, some 300, "/gone/app.apk"⟩)] := by
  exact ⟨rfl, rfl, rfl⟩

/-- C6 (amended): a failing call never adds or modifies a cache entry;
every entry present after a failing call was present, unchanged, before
it.  (A failing call may still *remove* an entry: the stale-entry
purges of lines 128–129 and 208–209 delete an entry whose recorded
artifact no longer exists before the failure occurs.) -/
theorem c6_amended (env : Env) (app : String) (exts : List String) (st : St)
    (err : AppError) (k : String) (e : CacheEntry)
    (herr : (configureAppStr env app exts st).1 = Except.error err)
    (hk : cacheGet (configureAppStr env app exts st).2.cache k = some e) :
    cacheGet st.cache k = some e := by
  unfold configureAppStr at herr hk
  rcases hf : fetchPhase env app exts st with ⟨r, st1⟩
  rw [hf] at herr hk
  have hmono : ∀ e2 : CacheEntry,
      cacheGet st1.cache k = some e2 → cacheGet st.cache k = some e2 := by
    intro e2 h2
    rcases fetchPhase_cache env app exts st with hc | hc <;>
      rw [hf] at hc <;> simp only at hc
    · rw [hc] at h2
      exact h2
    · rw [hc] at h2
      exact cacheGet_cacheDel_mono _ _ _ _ h2
  cases r with
  | error e0 => exact hmono e hk
  | ok m =>
    cases m with
    | done p => simp at herr
    | step na su cm =>
      rcases finishPhase_err_cache env app exts na su cm st1 err herr with hc | hc
      · rw [hc] at hk
        exact hmono e hk
      · rw [hc] at hk
        exact hmono e (cacheGet_cacheDel_mono _ _ _ _ hk)

/-- Witness for C6 (amended): a failing download against a cache
holding an unrelated entry; the entry survives and the theorem recovers
it from the final cache. -/
theorem c6_witness :
    cacheGet stKeep.cache "a" = some ⟨none, none, "/a/p.apk"⟩ :=
  c6_amended envDLFail "http://x/app.zip" [".apk"] stKeep
    (AppError.downloadFailure "http://x/app.zip") "a" ⟨none, none, "/a/p.apk"⟩
    rfl rfl

/-! ## Claim C4 -/

/-- Head of a stable depth-insertion. -/
theorem insertByDepth_head (x : String) (l : List String) :
    (insertByDepth x l).head? = some (match l.head? with
      | none => x
      | some y => if segDepth x ≤ segDepth y then x else y) := by
  cases l with
  | nil => rfl
  | cons y ys =>
    by_cases h : segDepth x ≤ segDepth y <;> simp [insertByDepth, h]

/-- The head of the depth sort is the earliest minimum-depth
element. -/
theorem sortByDepth_head (l : List String) :
    (sortByDepth l).head? = firstMinByDepth l := by
  induction l with
  | nil => rfl
  | cons x xs ih =>
    unfold sortByDepth firstMinByDepth
    rw [insertByDepth_head, ih]
    cases hm : firstMinByDepth xs with
    | none => rfl
    | some m =>
      by_cases h : segDepth x ≤ segDepth m
      · simp [h, Nat.not_lt.mpr h]
      · simp [h, Nat.not_le.mp h]

/-- A non-empty list always has an earliest minimum. -/
theorem firstMinByDepth_isSome (x : String) (xs : List String) :
    ∃ m, firstMinByDepth (x :: xs) = some m := by
  unfold firstMinByDepth
  cases firstMinByDepth xs with
  | none => exact ⟨x, rfl⟩
  | some m =>
    by_cases h : segDepth m < segDepth x
    · exact ⟨m, by simp [h]⟩
    · exact ⟨x, by simp [h]⟩

/-- The earliest minimum-depth element splits the list into a strictly
deeper front, the element, and a no-shallower remainder. -/
theorem firstMinByDepth_spec (l : List String) : ∀ m : String,
    firstMinByDepth l = some m →
    ∃ l1 l2, l = l1 ++ m :: l2 ∧ (∀ c ∈ l1, segDepth m < segDepth c) ∧
      (∀ c ∈ l, segDepth m ≤ segDepth c) := by
  induction l with
  | nil => intro m h; simp [firstMinByDepth] at h
  | cons x xs ih =>
    intro m h
    unfold firstMinByDepth at h
    cases hm : firstMinByDepth xs with
    | none =>
      rw [hm] at h
      obtain rfl : x = m := by injection h
      have hxs : xs = [] := by
        cases xs with
        | nil => rfl
        | cons a as =>
          obtain ⟨m2, hm2⟩ := firstMinByDepth_isSome a as
          rw [hm2] at hm
          exact Option.noConfusion hm
      subst hxs
      exact ⟨[], [], rfl, by simp, by simp⟩
    | some m2 =>
      rw [hm] at h
      simp only at h
      obtain ⟨l1, l2, heq, hfront, hmin⟩ := ih m2 hm
      by_cases hlt : segDepth m2 < segDepth x
      · rw [if_pos hlt] at h
        obtain rfl : m2 = m := by injection h
        refine ⟨x :: l1, l2, by simp [heq], ?_, ?_⟩
        · intro c hc
          rcases List.mem_cons.mp hc with rfl | hc
          · exact hlt
          · exact hfront c hc
        · intro c hc
          rcases List.mem_cons.mp hc with rfl | hc
          · exact Nat.le_of_lt hlt
          · exact hmin c hc
      · rw [if_neg hlt] at h
        obtain rfl : x = m := by injection h
        refine ⟨[], xs, rfl, by simp, ?_⟩
        intro c hc
        rcases List.mem_cons.mp hc with rfl | hc
        · exact Nat.le_refl _
        · exact Nat.le_trans (Nat.not_lt.mp hlt) (hmin c hc)

/-- C4: `unzipApp` filters the enumerated entries to the supported
extensions and returns the shallowest candidate, ties broken by
enumeration order: the winner `m` splits the candidate list into a
strictly deeper front and a no-shallower tail.  If no entry matches,
it fails with `NoBundleFound` naming the attempted extensions; if some
entry matches, a winner exists. -/
theorem c4_selection (env : Env) (zipPath dstRoot : String)
    (exts : List String) (st : St) (entries : List String)
    (hz : env.zipEntries zipPath = some entries) :
    (entries.filter (fun p => exts.contains (pathExtname p)) = [] →
      (unzipApp env zipPath dstRoot exts st).1 =
        Except.error (AppError.noBundleFound exts)) ∧
    (∀ m, selectBundle entries exts = some m →
      (unzipApp env zipPath dstRoot exts st).1 =
        Except.ok (pathResolve dstRoot m) ∧
      ∃ l1 l2,
        entries.filter (fun p => exts.contains (pathExtname p)) =
          l1 ++ m :: l2 ∧
        (∀ c ∈ l1, segDepth m < segDepth c) ∧
        (∀ c ∈ entries.filter (fun p => exts.contains (pathExtname p)),
          segDepth m ≤ segDepth c)) ∧
    (entries.filter (fun p => exts.contains (pathExtname p)) ≠ [] →
      ∃ m, selectBundle entries exts = some m) := by
  refine ⟨?_, ?_, ?_⟩
  · intro hfil
    have hsel : selectBundle entries exts = none := by
      unfold selectBundle
      rw [hfil]
      rfl
    simp [unzipApp, hz, hsel]
  · intro m hm
    constructor
    · simp [unzipApp, hz, hm]
    · have hfm : firstMinByDepth
          (entries.filter (fun p => exts.contains (pathExtname p))) = some m := by
        rw [← sortByDepth_head]
        exact hm
      exact firstMinByDepth_spec _ m hfm
  · intro hne
    cases hfil : entries.filter (fun p => exts.contains (pathExtname p)) with
    | nil => exact absurd hfil hne
    | cons a as =>
      obtain ⟨m, hm⟩ := firstMinByDepth_isSome a as
      refine ⟨m, ?_⟩
      unfold selectBundle
      rw [sortByDepth_head, hfil, hm]

/-- Witness for C4: a zip holding `a/b/c.apk` (depth 2) and `x.apk`
(depth 0); the depth-0 entry wins. -/
theorem c4_witness :
    (unzipApp envZipTwoDepths "/z.zip" "/dst" [".apk"] st0).1 =
      Except.ok (pathResolve "/dst" "x.apk") :=
  ((c4_selection envZipTwoDepths "/z.zip" "/dst" [".apk"] st0
      ["a/b/c.apk", "x.apk"] rfl).2.1 "x.apk" (by decide)).1

/-! ## Equation lemmas for the URL download path -/

/-- A web URL without a freshness hit proceeds to the download. -/
theorem fetchPhase_url_nohit (env : Env) (app : String) (exts : List String)
    (st : St) (hurl : isWebUrl app = true)
    (hget : getCachedApplicationPath st.cache app env.headers.lastModified =
      none) :
    fetchPhase env app exts st =
      downloadPart env app exts env.headers.lastModified st := by
  simp [fetchPhase, hurl, hget]

/-- A successful download yields the temp target path and bumps the
counters. -/
theorem downloadPart_ok (env : Env) (app : String) (exts : List String)
    (cm : Option Nat) (st : St) (hdl : env.downloadOk = true) :
    downloadPart env app exts cm st =
      (Except.ok (Mid.step
        (env.tmpFile st.tmpCounter
          (deriveDownloadName env.headers ((urlPathname app).getD "null") exts).1)
        (deriveDownloadName env.headers ((urlPathname app).getD "null") exts).2
        cm),
       { st with tmpCounter := st.tmpCounter + 1,
                 downloads := st.downloads + 1,
                 fs := fsAdd st.fs (env.tmpFile st.tmpCounter
                   (deriveDownloadName env.headers
                     ((urlPathname app).getD "null") exts).1) }) := by
  simp [downloadPart, hdl]

/-- The whole fetch phase for the concrete descriptor
`http://x/app.zip` under a degraded probe: the basename `app.zip` has a
recognized archive extension, so the derived name is `app.zip` with the
extraction flag set. -/
theorem fetch_urlzip (env : Env) (exts : List String) (st : St)
    (hhdr : env.headers = ⟨none, none, none⟩) (hdl : env.downloadOk = true) :
    fetchPhase env "http://x/app.zip" exts st =
      (Except.ok (Mid.step (env.tmpFile st.tmpCounter "app.zip") true none),
       { st with tmpCounter := st.tmpCounter + 1,
                 downloads := st.downloads + 1,
                 fs := fsAdd st.fs (env.tmpFile st.tmpCounter "app.zip") }) := by
  rw [fetchPhase_url_nohit env _ exts st (by decide)
    (by rw [hhdr]; exact getCachedApplicationPath_none ..)]
  rw [downloadPart_ok env _ exts _ st hdl, hhdr]
  rfl

/-- The digest-hit branch of `finishPhase` (lines 199–207): delete the
fresh archive, re-validate the cached path, leave cache and counters
alone. -/
theorem finishPhase_hash_hit (env : Env) (app : String) (exts : List String)
    (na : String) (cm : Option Nat) (st : St) (e : CacheEntry)
    (hc : cacheGet st.cache app = some e)
    (hh : e.hash = some (env.hashOf na))
    (hfs : st.fs e.fullPath = true)
    (hne : na ≠ app) :
    finishPhase env app exts na true cm st =
      (verifyAppExtension e.fullPath exts,
       { st with fs := fsRemove st.fs na }) := by
  simp only [finishPhase, if_true]
  rw [hc]
  simp only []
  rw [if_pos hh, if_pos hfs, if_pos hne]

/-- Without a cache entry for the descriptor, the archive branch goes
straight to extraction. -/
theorem finishPhase_no_entry (env : Env) (app : String) (exts : List String)
    (na : String) (cm : Option Nat) (st : St)
    (hc : cacheGet st.cache app = none) :
    finishPhase env app exts na true cm st =
      extractAndFinish env app exts na (env.hashOf na) cm st := by
  simp only [finishPhase, if_true]
  rw [hc]

/-- The success equation of `unzipApp`. -/
theorem unzipApp_ok (env : Env) (zipPath dstRoot : String)
    (exts : List String) (st : St) (entries : List String) (w : String)
    (hz : env.zipEntries zipPath = some entries)
    (hw : selectBundle entries exts = some w) :
    unzipApp env zipPath dstRoot exts st =
      (Except.ok (pathResolve dstRoot w),
       { st with tmpCounter := st.tmpCounter + 1,
                 extractions := st.extractions + 1,
                 fs := fsRemove (fsMv (fsAdd st.fs (env.tmpDir st.tmpCounter))
                   (pathResolve (env.tmpDir st.tmpCounter) w)
                   (pathResolve dstRoot w)) (env.tmpDir st.tmpCounter) }) := by
  simp [unzipApp, hz, hw]

/-- With an entry whose digest differs from the fresh archive's, the
archive branch goes to extraction with the cache untouched
(line 199's `===` fails). -/
theorem finishPhase_hash_miss (env : Env) (app : String) (exts : List String)
    (na : String) (cm : Option Nat) (st : St) (e : CacheEntry)
    (hc : cacheGet st.cache app = some e)
    (hh : ¬ e.hash = some (env.hashOf na)) :
    finishPhase env app exts na true cm st =
      extractAndFinish env app exts na (env.hashOf na) cm st := by
  simp only [finishPhase, if_true]
  rw [hc]
  simp only []
  rw [if_neg hh]

/-- With a matching digest but the recorded artifact gone from disk,
the stale entry is purged (lines 208–209) and extraction proceeds. -/
theorem finishPhase_stale (env : Env) (app : String) (exts : List String)
    (na : String) (cm : Option Nat) (st : St) (e : CacheEntry)
    (hc : cacheGet st.cache app = some e)
    (hh : e.hash = some (env.hashOf na))
    (hgone : st.fs e.fullPath = false) :
    finishPhase env app exts na true cm st =
      extractAndFinish env app exts na (env.hashOf na) cm
        { st with cache := cacheDel st.cache app } := by
  simp only [finishPhase, if_true]
  rw [hc]
  simp only []
  rw [if_pos hh, if_neg (by simp [hgone])]

/-- The success path of `extractAndFinish` for a fresh archive `T`
distinct from the descriptor: the winning bundle is returned, exactly
one extraction is performed, and the cache entry for the descriptor is
written with the digest, the freshness token and the extracted
path — whatever entry (if any) the cache held before. -/
theorem extractAndFinish_ok_tail (env : Env) (app : String)
    (exts : List String) (T ah : String) (cm : Option Nat) (st : St)
    (entries : List String) (w : String)
    (hz : env.zipEntries T = some entries)
    (hw : selectBundle entries exts = some w)
    (hextd : exts.contains
      (pathExtname (pathResolve (env.tmpDir st.tmpCounter) w)) = true)
    (hne1 : pathResolve (env.tmpDir st.tmpCounter) w ≠ T)
    (hne2 : pathResolve (env.tmpDir st.tmpCounter) w ≠ app)
    (hne3 : T ≠ app)
    (hah : ah ≠ "") :
    (extractAndFinish env app exts T ah cm st).1 =
      Except.ok (pathResolve (env.tmpDir st.tmpCounter) w) ∧
    (extractAndFinish env app exts T ah cm st).2.extractions =
      st.extractions + 1 ∧
    cacheGet (extractAndFinish env app exts T ah cm st).2.cache app =
      some ⟨some ah, cm, pathResolve (env.tmpDir st.tmpCounter) w⟩ := by
  simp only [extractAndFinish]
  rw [unzipApp_ok env T _ exts _ entries w hz hw]
  simp only []
  rw [if_pos ⟨hne1, hne3⟩]
  unfold commonTail verifyAppExtension
  rw [hextd]
  simp only [eq_self_iff_true, if_true]
  have hguard : (!(app == pathResolve (env.tmpDir st.tmpCounter) w) &&
      (jsTruthy (some ah) || cm.isSome)) = true := by
    simp [jsTruthy, hah, Ne.symm hne2]
  rw [if_pos hguard]
  refine ⟨by trivial, ?_, cacheGet_cacheSet_self ..⟩
  cases cacheGet st.cache app with
  | none => rfl
  | some e2 => simp [apply_ite St.extractions]

/-! ## Claim C1 -/

/-- Counterexample to C1: every premise of the claim holds — the probe
yields token 100, the cache entry stores token 100 (not older) and its
artifact `/c/old.ipa` still exists — yet the call does not return the
stored path: the hit path re-validates the extension (line 126), and
with supported set `['.apk']` it fails with `UnsupportedExtension`.
No download is attempted either way. -/
theorem c1_counterexample :
    (configureAppStr envFresh100 "http://x/app.zip" [".apk"] stHitIpa).1 =
      Except.error (AppError.unsupportedExtension "/c/old.ipa" [".apk"]) ∧
    (configureAppStr envFresh100 "http://x/app.zip" [".apk"] stHitIpa).2.downloads
      = stHitIpa.downloads ∧
    cacheGet stHitIpa.cache "http://x/app.zip" =
      some ⟨none, some 100, "/c/old.ipa"⟩ ∧
    stHitIpa.fs "/c/old.ipa" = true :=
  ⟨by decide, by decide, by decide, by decide⟩

/-- C1 (amended): under the claim's premises (probed token, cache entry
with a stored token at least as recent, stored artifact on disk) the
call performs no download and no state change at all, and returns the
stored path provided the stored path's extension is in the supported
set; with an unsupported extension it instead fails with
`UnsupportedExtension`, still without downloading. -/
theorem c1_amended (env : Env) (app : String) (exts : List String) (st : St)
    (t lm : Nat) (e : CacheEntry)
    (hurl : isWebUrl app = true)
    (hprobe : env.headers.lastModified = some t)
    (hc : cacheGet st.cache app = some e)
    (helm : e.lastModified = some lm)
    (hle : t ≤ lm)
    (hfs : st.fs e.fullPath = true) :
    configureAppStr env app exts st = (verifyAppExtension e.fullPath exts, st) ∧
    (exts.contains (pathExtname e.fullPath) = true →
      configureAppStr env app exts st = (Except.ok e.fullPath, st)) := by
  have hget : getCachedApplicationPath st.cache app env.headers.lastModified =
      some e.fullPath := by
    simp [getCachedApplicationPath, hprobe, hc, helm, hle]
  have h1 : configureAppStr env app exts st =
      (verifyAppExtension e.fullPath exts, st) := by
    simp only [configureAppStr, fetchPhase, hurl, hget, if_true]
    rw [hfs]
    simp only [if_true]
    cases hv : verifyAppExtension e.fullPath exts <;> rfl
  refine ⟨h1, fun hext => ?_⟩
  rw [h1]
  unfold verifyAppExtension
  rw [if_pos hext]

/-- Witness for C1 (amended): a second acquisition with unchanged
token 100 and supported set `['.apk']` returns the cached
`/c/app.apk` with no download and no state change. -/
theorem c1_witness :
    configureAppStr envFresh100 "http://x/app.zip" [".apk"] stHitApk =
      (Except.ok "/c/app.apk", stHitApk) :=
  (c1_amended envFresh100 "http://x/app.zip" [".apk"] stHitApk 100 100
    ⟨none, some 100, "/c/app.apk"⟩ (by decide) (by decide) (by decide)
    (by decide) (by decide) (by decide)).2 (by decide)

/-! ## Claim C3 -/

/-- Counterexample to C3: the claim's premises hold — a fresh download
of an archive whose digest `"h"` matches the cache entry for the
descriptor, with the entry's artifact `/c/old.ipa` on disk — and the
downloaded archive is indeed deleted and extraction skipped, but the
cached path is not returned: the reuse path re-validates the extension
(line 206) and fails with `UnsupportedExtension` for supported set
`['.apk']`. -/
theorem c3_counterexample :
    (configureAppStr baseEnv "http://x/app.zip" [".apk"] stHashIpa).1 =
      Except.error (AppError.unsupportedExtension "/c/old.ipa" [".apk"]) ∧
    (configureAppStr baseEnv "http://x/app.zip" [".apk"] stHashIpa).2.extractions
      = stHashIpa.extractions ∧
    (configureAppStr baseEnv "http://x/app.zip" [".apk"] stHashIpa).2.fs
      (baseEnv.tmpFile stHashIpa.tmpCounter "app.zip") = false ∧
    cacheGet stHashIpa.cache "http://x/app.zip" =
      some ⟨some "h", none, "/c/old.ipa"⟩ ∧
    stHashIpa.fs "/c/old.ipa" = true :=
  ⟨by decide, by decide, by decide, by decide, by decide⟩

/-- C3 (amended): for every web-URL descriptor whose acquisition
reaches a fresh download of an archive (no freshness cache hit — the
probed token may be absent or advanced past the stored one — and the
derived name marks the resource for extraction), with `T` the
downloaded archive path.  Digest-hit part: if a cache entry holds a
digest identical to the fresh archive's and its artifact exists on
disk, the downloaded archive is deleted, extraction is skipped, the
cache is untouched, and the cached path is returned provided its
extension is in the supported set (the reuse path re-validates at
line 206, so an unsupported extension fails instead).  Miss part: with
no usable entry — no entry at all, an entry with a differing digest,
or an entry with a matching digest whose artifact is gone (then purged
at lines 208–209) — extraction proceeds (exactly one extraction) and
the cache entry for the descriptor is updated with the new digest, the
probed freshness token, and the extracted path. -/
theorem c3_amended (env : Env) (app : String) (exts : List String) (st : St)
    (fname T : String)
    (hurl : isWebUrl app = true)
    (hnohit : getCachedApplicationPath st.cache app env.headers.lastModified =
      none)
    (hdl : env.downloadOk = true)
    (hfname : (deriveDownloadName env.headers ((urlPathname app).getD "null")
      exts).1 = fname)
    (harch : (deriveDownloadName env.headers ((urlPathname app).getD "null")
      exts).2 = true)
    (hT : env.tmpFile st.tmpCounter fname = T)
    (hTapp : T ≠ app) :
    (∀ e : CacheEntry,
      cacheGet st.cache app = some e →
      e.hash = some (env.hashOf T) →
      st.fs e.fullPath = true →
      (configureAppStr env app exts st).1 = verifyAppExtension e.fullPath exts ∧
      (configureAppStr env app exts st).2.extractions = st.extractions ∧
      (configureAppStr env app exts st).2.fs T = false ∧
      (configureAppStr env app exts st).2.cache = st.cache ∧
      (exts.contains (pathExtname e.fullPath) = true →
        (configureAppStr env app exts st).1 = Except.ok e.fullPath)) ∧
    (∀ (entries : List String) (w D : String),
      (match cacheGet st.cache app with
       | some e => decide (e.hash = some (env.hashOf T)) &&
           fsAdd st.fs T e.fullPath
       | none => false) = false →
      env.zipEntries T = some entries →
      selectBundle entries exts = some w →
      pathResolve (env.tmpDir (st.tmpCounter + 1)) w = D →
      exts.contains (pathExtname D) = true →
      D ≠ T →
      D ≠ app →
      env.hashOf T ≠ "" →
      (configureAppStr env app exts st).1 = Except.ok D ∧
      (configureAppStr env app exts st).2.extractions = st.extractions + 1 ∧
      cacheGet (configureAppStr env app exts st).2.cache app =
        some ⟨some (env.hashOf T), env.headers.lastModified, D⟩) := by
  subst hfname
  subst hT
  have hfetch : fetchPhase env app exts st =
      (Except.ok (Mid.step
        (env.tmpFile st.tmpCounter
          (deriveDownloadName env.headers
            ((urlPathname app).getD "null") exts).1)
        true env.headers.lastModified),
       { st with tmpCounter := st.tmpCounter + 1,
                 downloads := st.downloads + 1,
                 fs := fsAdd st.fs (env.tmpFile st.tmpCounter
                   (deriveDownloadName env.headers
                     ((urlPathname app).getD "null") exts).1) }) := by
    rw [fetchPhase_url_nohit env app exts st hurl hnohit,
      downloadPart_ok env app exts env.headers.lastModified st hdl, harch]
  constructor
  · intro e hc hh hfs
    unfold configureAppStr
    rw [hfetch]
    simp only []
    rw [finishPhase_hash_hit env app exts
      (env.tmpFile st.tmpCounter
        (deriveDownloadName env.headers ((urlPathname app).getD "null") exts).1)
      env.headers.lastModified
      { st with tmpCounter := st.tmpCounter + 1, downloads := st.downloads + 1,
                fs := fsAdd st.fs (env.tmpFile st.tmpCounter
                  (deriveDownloadName env.headers
                    ((urlPathname app).getD "null") exts).1) }
      e hc hh (by simp [fsAdd, hfs]) hTapp]
    refine ⟨rfl, rfl, ?_, rfl, ?_⟩
    · simp [fsRemove]
    · intro hext
      show verifyAppExtension e.fullPath exts = Except.ok e.fullPath
      unfold verifyAppExtension
      rw [if_pos hext]
  · intro entries w D hmiss hz hw hD hextd hneT hneApp hhash
    subst hD
    unfold configureAppStr
    rw [hfetch]
    simp only []
    cases hcg : cacheGet st.cache app with
    | none =>
      rw [finishPhase_no_entry env app exts
        (env.tmpFile st.tmpCounter
          (deriveDownloadName env.headers
            ((urlPathname app).getD "null") exts).1)
        env.headers.lastModified
        { st with tmpCounter := st.tmpCounter + 1,
                  downloads := st.downloads + 1,
                  fs := fsAdd st.fs (env.tmpFile st.tmpCounter
                    (deriveDownloadName env.headers
                      ((urlPathname app).getD "null") exts).1) }
        hcg]
      exact extractAndFinish_ok_tail env app exts _ _
        env.headers.lastModified _ entries w hz hw hextd hneT hneApp hTapp hhash
    | some e =>
      rw [hcg] at hmiss
      simp only [] at hmiss
      by_cases hh : e.hash = some (env.hashOf (env.tmpFile st.tmpCounter
          (deriveDownloadName env.headers ((urlPathname app).getD "null") exts).1))
      · have hgone : fsAdd st.fs
            (env.tmpFile st.tmpCounter
              (deriveDownloadName env.headers
                ((urlPathname app).getD "null") exts).1) e.fullPath = false := by
          simpa [hh] using hmiss
        rw [finishPhase_stale env app exts
          (env.tmpFile st.tmpCounter
            (deriveDownloadName env.headers
              ((urlPathname app).getD "null") exts).1)
          env.headers.lastModified
          { st with tmpCounter := st.tmpCounter + 1,
                    downloads := st.downloads + 1,
                    fs := fsAdd st.fs (env.tmpFile st.tmpCounter
                      (deriveDownloadName env.headers
                        ((urlPathname app).getD "null") exts).1) }
          e hcg hh hgone]
        exact extractAndFinish_ok_tail env app exts _ _
          env.headers.lastModified _ entries w hz hw hextd hneT hneApp hTapp
          hhash
      · rw [finishPhase_hash_miss env app exts
          (env.tmpFile st.tmpCounter
            (deriveDownloadName env.headers
              ((urlPathname app).getD "null") exts).1)
          env.headers.lastModified
          { st with tmpCounter := st.tmpCounter + 1,
                    downloads := st.downloads + 1,
                    fs := fsAdd st.fs (env.tmpFile st.tmpCounter
                      (deriveDownloadName env.headers
                        ((urlPathname app).getD "null") exts).1) }
          e hcg hh]
        exact extractAndFinish_ok_tail env app exts _ _
          env.headers.lastModified _ entries w hz hw hextd hneT hneApp hTapp
          hhash

/-- Witness for C3 (amended), both parts at concrete inputs.  Part 1:
the probed token advanced from the stored 100 to 200, so a fresh
download happens, but the digest `"h"` is unchanged — the cached
`/c/prev.apk` is reused with no extraction.  Part 2: the cached digest
differs (`"old"` vs `"h"`), so extraction proceeds and the cache entry
is updated with the new digest and the extracted path. -/
theorem c3_witness :
    (configureAppStr envFresh200 "http://x/app.zip" [".apk"] stHashOld).1 =
      Except.ok "/c/prev.apk" ∧
    (configureAppStr envFresh200 "http://x/app.zip" [".apk"]
      stHashOld).2.extractions = stHashOld.extractions ∧
    (configureAppStr envZipTwoDepths "http://x/app.zip" [".apk"]
      stHashOther).1 = Except.ok "/tmp/d1/x.apk" ∧
    cacheGet (configureAppStr envZipTwoDepths "http://x/app.zip" [".apk"]
        stHashOther).2.cache "http://x/app.zip" =
      some ⟨some "h", none, "/tmp/d1/x.apk"⟩ := by
  have hA := (c3_amended envFresh200 "http://x/app.zip" [".apk"] stHashOld
      "app.zip" "/tmp/f0/app.zip" (by decide) (by decide) rfl (by decide)
      (by decide) (by decide) (by decide)).1
    ⟨some "h", some 100, "/c/prev.apk"⟩ (by decide) (by decide) (by decide)
  have hB := (c3_amended envZipTwoDepths "http://x/app.zip" [".apk"]
      stHashOther "app.zip" "/tmp/f0/app.zip" (by decide) (by decide) rfl
      (by decide) (by decide) (by decide) (by decide)).2
    ["a/b/c.apk", "x.apk"] "x.apk" "/tmp/d1/x.apk" (by decide) (by decide)
    (by decide) (by decide) (by decide) (by decide) (by decide) (by decide)
  exact ⟨hA.2.2.2.2 (by decide), hA.2.1, hB.1, hB.2.2⟩

/-! ## Claim C7 -/

/-- The invalid-archive equation of `unzipApp`. -/
theorem unzipApp_invalid (env : Env) (zipPath dstRoot : String)
    (exts : List String) (st : St)
    (hz : env.zipEntries zipPath = none) :
    unzipApp env zipPath dstRoot exts st =
      (Except.error (AppError.invalidArchive zipPath), st) := by
  simp [unzipApp, hz]

/-- The no-bundle equation of `unzipApp`. -/
theorem unzipApp_nobundle (env : Env) (zipPath dstRoot : String)
    (exts : List String) (st : St) (entries : List String)
    (hz : env.zipEntries zipPath = some entries)
    (hsel : selectBundle entries exts = none) :
    unzipApp env zipPath dstRoot exts st =
      (Except.error (AppError.noBundleFound exts),
       { st with tmpCounter := st.tmpCounter + 1,
                 extractions := st.extractions + 1,
                 fs := fsRemove (fsAdd st.fs (env.tmpDir st.tmpCounter))
                   (env.tmpDir st.tmpCounter) }) := by
  simp [unzipApp, hz, hsel]

/-- Counterexample to C7: acquiring the existing local `/a/app.ipa`
(a valid zip of a typical iOS app) with supported set `['.apk']` fails
with `NoBundleFound`, not with `UnsupportedExtension`: `.ipa` is a
recognized archive extension, so the file is unzipped rather than
extension-checked. -/
theorem c7_counterexample :
    (configureAppStr envIpaZip "/a/app.ipa" [".apk"] stIpa).1 =
      Except.error (AppError.noBundleFound [".apk"]) ∧
    AppError.isUnsupportedExtension (AppError.noBundleFound [".apk"]) = false :=
  ⟨by decide, by decide⟩

/-- C7 (amended): acquiring an existing, uncached local `.ipa` with
supported set `['.apk']` fails, but because `.ipa` is in the recognized
archive set the file is treated as an archive: an invalid zip fails
with `InvalidArchive`, and a valid zip containing no `.apk` entry fails
with `NoBundleFound` naming the attempted extensions — not with
`UnsupportedExtension`. -/
theorem c7_amended (env : Env) (app : String) (st : St)
    (hproto : urlProtocol app = none)
    (hfs : st.fs app = true)
    (hext : pathExtname app = ".ipa")
    (hc : cacheGet st.cache app = none) :
    (env.zipEntries app = none →
      (configureAppStr env app [".apk"] st).1 =
        Except.error (AppError.invalidArchive app)) ∧
    (∀ entries : List String, env.zipEntries app = some entries →
      entries.filter (fun p => [".apk"].contains (pathExtname p)) = [] →
      (configureAppStr env app [".apk"] st).1 =
        Except.error (AppError.noBundleFound [".apk"])) := by
  have hweb : isWebUrl app = false := by simp [isWebUrl, hproto]
  have hzipext : ZIP_EXTS.contains (pathExtname app) = true := by
    rw [hext]
    decide
  have h1 : fetchPhase env app [".apk"] st =
      (Except.ok (Mid.step app true none), st) := by
    unfold fetchPhase
    rw [hweb, hfs, hzipext]
    simp
  have h2 : configureAppStr env app [".apk"] st =
      extractAndFinish env app [".apk"] app (env.hashOf app) none st := by
    unfold configureAppStr
    rw [h1]
    simp only []
    exact finishPhase_no_entry env app [".apk"] app none st hc
  constructor
  · intro hz
    rw [h2]
    simp only [extractAndFinish]
    rw [unzipApp_invalid env app (env.tmpDir st.tmpCounter) [".apk"]
      { st with tmpCounter := st.tmpCounter + 1,
                fs := fsAdd st.fs (env.tmpDir st.tmpCounter) } hz]
  · intro entries hz hfil
    have hsel : selectBundle entries [".apk"] = none := by
      unfold selectBundle
      rw [hfil]
      rfl
    rw [h2]
    simp only [extractAndFinish]
    rw [unzipApp_nobundle env app (env.tmpDir st.tmpCounter) [".apk"]
      { st with tmpCounter := st.tmpCounter + 1,
                fs := fsAdd st.fs (env.tmpDir st.tmpCounter) } entries hz hsel]

/-- Witness for C7 (amended): the concrete `/a/app.ipa` holding only
`Payload/App.app`. -/
theorem c7_witness :
    (configureAppStr envIpaZip "/a/app.ipa" [".apk"] stIpa).1 =
      Except.error (AppError.noBundleFound [".apk"]) :=
  (c7_amended envIpaZip "/a/app.ipa" stIpa (by decide) (by decide) (by decide)
    (by decide)).2 ["Payload/App.app"] (by decide) (by decide)

/-! ## Claim C2 -/

/-- Counterexample to C2: a URL whose basename `bar.zip` already
derives a name via check (1) — the second conjunct records that the
recognized-archive-extension check fired — served with a
content-disposition attachment filename `baz.ipa`.  The final derived
name is `baz.ipa`, not `bar.zip`: the content-disposition check
overwrites the name derived by the earlier check, contradicting the
claim that later checks never overwrite earlier ones. -/
theorem c2_counterexample :
    deriveDownloadName ⟨none, none, some "attachment; filename=\"baz.ipa\""⟩
      "/bar.zip" [".apk"] = ("baz.ipa", true) ∧
    ZIP_EXTS.contains (pathExtname
      (sanitize (pathBasename (percentDecodeStr "/bar.zip")))) = true ∧
    ("baz.ipa" : String) ≠ "bar.zip" :=
  ⟨by decide, by decide, by decide⟩

/-- C2 (amended): the derivation is equivalent to the corrected
priority order — a content-disposition attachment filename overrides
any earlier-derived name (still marking for extraction when its
extension is recognized); the URL-basename check beats the content-type
check, which only fills a missing name but always marks for extraction;
the fallback applies only when no check produced a name.  A URL lacking
an extension served with content-type `application/zip` and
content-disposition `attachment; filename="foo.zip"` derives `foo.zip`
and is marked for extraction. -/
theorem c2_amended :
    (∀ (headers : Headers) (pathnameStr : String) (exts : List String),
      deriveDownloadName headers pathnameStr exts =
        deriveDownloadNameSpec headers pathnameStr exts) ∧
    deriveDownloadName ⟨none, some "application/zip",
        some "attachment; filename=\"foo.zip\""⟩ "/download" [".apk"] =
      ("foo.zip", true) := by
  constructor
  · intro h p exts
    obtain ⟨lm, ct, cd⟩ := h
    simp only [deriveDownloadName, deriveDownloadNameSpec]
    cases ct with
    | none =>
      cases cd with
      | none =>
        cases hfe : ZIP_EXTS.contains (pathExtname (sanitize (pathBasename
            (percentDecodeStr p)))) <;> simp [hfe]
      | some cdv =>
        cases hfe : ZIP_EXTS.contains (pathExtname (sanitize (pathBasename
            (percentDecodeStr p)))) <;>
          by_cases hat : startsWithCI cdv "attachment" = true <;>
            cases hcd : extractCDFileName cdv <;>
              simp [hfe, hat, hcd]
    | some ctv =>
      cases cd with
      | none =>
        cases hfe : ZIP_EXTS.contains (pathExtname (sanitize (pathBasename
            (percentDecodeStr p)))) <;>
          cases hmime : zipMimeMatch ctv <;> simp [hfe, hmime]
      | some cdv =>
        cases hfe : ZIP_EXTS.contains (pathExtname (sanitize (pathBasename
            (percentDecodeStr p)))) <;>
          cases hmime : zipMimeMatch ctv <;>
            by_cases hat : startsWithCI cdv "attachment" = true <;>
              cases hcd : extractCDFileName cdv <;>
                simp [hfe, hat, hcd, hmime]
  · decide

end AppiumHelpers
